import Mathlib

/-!
Verification development for the touch-interactive audio/display appliance
core (`DMART_pico_code_v2.py`).  Strings are modelled as lists of
characters, wall-clock times from the monotonic clock as rationals, and
mutable module-level state as explicit state records threaded through the
embedded functions.
-/

namespace Buddy

/-- Display text, modelled as a list of characters (Python `str`). -/
abbrev Str := List Char

/-- `" " * n` — a run of `n` spaces. -/
def spaces (n : ℕ) : Str := List.replicate n ' '

/-- `LCD_COLS = 20`. -/
def LCD_COLS : ℕ := 20

/-- `_fit_line(s, width, center=False)`: `None` becomes `""`; text longer
than `width` is truncated to `s[:width]`; shorter text is padded with
spaces to `width`, split evenly left/right when `center` is set. -/
def fit_line (s : Option Str) (width : ℕ) (center : Bool) : Str :=
  let s := s.getD []
  if width < s.length then s.take width
  else if center then
    let pad_total := width - s.length
    let left := pad_total / 2
    let right := pad_total - left
    spaces left ++ s ++ spaces right
  else s ++ spaces (width - s.length)

/-- `_lcd_line(left, right="", width=LCD_COLS)`: left-align `left`,
right-align `right`, pad the gap with spaces; if the gap would be less
than one column, join with a single space and truncate to `width`.
The gap is computed in ℤ because Python's subtraction may go negative. -/
def lcd_line (left right : Str) (width : ℕ) : Str :=
  if right = [] then fit_line (some left) width false
  else
    let gap : ℤ := (width : ℤ) - left.length - right.length
    if gap < 1 then (left ++ [' '] ++ right).take width
    else left ++ spaces gap.toNat ++ right

/-! ## Interaction counter (NVM-backed, `microcontroller.nvm[0:4]`) -/

/-- `int.to_bytes(n, 4, "little")` for in-range values: the four
little-endian base-256 digits. -/
def toBytesLE4 (n : ℕ) : List ℕ :=
  [n % 256, n / 256 % 256, n / 65536 % 256, n / 16777216 % 256]

/-- `int.from_bytes(raw, "little")` on a byte list. -/
def fromBytesLE (l : List ℕ) : ℕ :=
  l.foldr (fun b acc => b + 256 * acc) 0

/-- module-level counter state: `_interaction_count`,
`_interaction_pending`, and the 4-byte NVM region. -/
structure CounterState where
  count : ℕ
  pending : ℕ
  nvm : List ℕ
  deriving DecidableEq, Repr

/-- `_load_interaction_count()`: decode `nvm[0:4]` little-endian; values
above the `1_000_000` sanity ceiling (uninitialized NVM is often
`0xFF…FF`) are replaced by zero. -/
def load_interaction_count (nvm : List ℕ) : ℕ :=
  let val := fromBytesLE (nvm.take 4)
  if 1000000 < val then 0 else val

/-- `_save_interaction_count()`: zero the pending counter and write the
in-memory count to NVM as 4 little-endian bytes. -/
def save_interaction_count (s : CounterState) : CounterState :=
  { s with pending := 0, nvm := toBytesLE4 s.count }

/-- `_increment_interaction()`: bump count and pending; flush to NVM when
`pending` reaches 10. -/
def increment_interaction (s : CounterState) : CounterState :=
  let s := { s with count := s.count + 1, pending := s.pending + 1 }
  if 10 ≤ s.pending then save_interaction_count s else s

/-! ## Easter egg (`_check_easter_egg`) -/

/-- `EASTER_EGG_SEQ = [0, 2, 4]`. -/
def EASTER_EGG_SEQ : List ℕ := [0, 2, 4]

/-- `_check_easter_egg(pad_idx)` acting on the `_last_pads` window:
append, truncate to the last `len(EASTER_EGG_SEQ)` entries, and on an
exact match clear the window and report `True` (suppress playback). -/
def check_easter_egg (w : List ℕ) (pad_idx : ℕ) : List ℕ × Bool :=
  let w := w ++ [pad_idx]
  let w := if EASTER_EGG_SEQ.length < w.length
           then w.drop (w.length - EASTER_EGG_SEQ.length) else w
  if w = EASTER_EGG_SEQ then ([], true) else (w, false)

/-- Run a sequence of fires through the easter-egg window, collecting the
per-fire result flags. -/
def eggRun (w : List ℕ) : List ℕ → List ℕ × List Bool
  | [] => (w, [])
  | p :: ps =>
    let r := check_easter_egg w p
    let rest := eggRun r.1 ps
    (rest.1, r.2 :: rest.2)

/-- The armed-loop press branch: on an egg hit, normal playback is
skipped; otherwise `play_wav` runs for the pad's asset.  Returns the new
window and whether playback happened. -/
def press_plays (w : List ℕ) (pad_idx : ℕ) : List ℕ × Bool :=
  ((check_easter_egg w pad_idx).1, !(check_easter_egg w pad_idx).2)

/-! ## Touch-pad debounce (main loop, armed scan) -/

/-- `TOUCH_DEBOUNCE_MS / 1000`, in seconds. -/
def DEBOUNCE_S : ℚ := 80 / 1000

/-- Per-pad debounce state: `touch_high_since[i]` (monotonic time the pin
went high, with `0.0` as the "not high" sentinel) and
`touch_triggered[i]` (already fired this press). -/
structure DebState where
  high_since : ℚ
  triggered : Bool
  deriving DecidableEq, Repr

/-- The cleared state `(0.0, False)`. -/
def DebState.clear : DebState := ⟨0, false⟩

/-- One armed-loop scan of a single pad at monotonic time `now` reading
raw level `current`: high and not yet triggered starts or continues the
debounce window, firing once the window reaches the threshold; a low
reading unconditionally clears `(high_since, triggered)`.  Returns the
new state and whether the pad fired this tick. -/
def debStep (s : DebState) (now : ℚ) (current : Bool) : DebState × Bool :=
  if current && !s.triggered then
    if s.high_since = 0 then ({ s with high_since := now }, false)
    else if DEBOUNCE_S ≤ now - s.high_since then
      ({ s with triggered := true }, true)
    else (s, false)
  else if !current then (DebState.clear, false)
  else (s, false)

/-- Run a pad through a sequence of poll ticks `(time, raw-level)`,
counting fire events. -/
def debRun (s : DebState) : List (ℚ × Bool) → DebState × ℕ
  | [] => (s, 0)
  | tc :: rest =>
    let r := debStep s tc.1 tc.2
    let rest' := debRun r.1 rest
    (rest'.1, (if r.2 then 1 else 0) + rest'.2)

/-! ## Battery monitor (`read_battery_pct`) -/

/-- `BAT_FULL_V = 4.2`. -/
def BAT_FULL_V : ℚ := 21 / 5
/-- `BAT_EMPTY_V = 3.2`. -/
def BAT_EMPTY_V : ℚ := 16 / 5
/-- `BAT_DIVIDER = 3`. -/
def BAT_DIVIDER : ℚ := 3
/-- `BAT_UPDATE_S = 30`. -/
def BAT_UPDATE_S : ℚ := 30

/-- Python `int()` on a rational: truncation toward zero. -/
def pyInt (q : ℚ) : ℤ := if 0 ≤ q then ⌊q⌋ else ⌈q⌉

/-- The uncached part of `read_battery_pct`: sum the ADC samples, average
over 5, scale through the divider and the linear voltage model, truncate
to an int and clamp to `[0, 100]`. -/
def battery_compute (samples : List ℚ) : ℤ :=
  let total := samples.sum
  let voltage := total / 5 / 65535 * (33 / 10) * BAT_DIVIDER
  let pct := pyInt ((voltage - BAT_EMPTY_V) / (BAT_FULL_V - BAT_EMPTY_V) * 100)
  max 0 (min 100 pct)

/-- Cache state: `_bat_pct_cache` (−1 until first read) and
`_bat_last_read`. -/
structure BatState where
  cache : ℤ
  last_read : ℚ
  deriving DecidableEq, Repr

/-- `read_battery_pct()` at monotonic time `now`, with the 5 raw ADC
samples the read would take supplied as `samples`: return the cached
percent if it is valid and fresh, else recompute and refresh the cache. -/
def read_battery_pct (s : BatState) (now : ℚ) (samples : List ℚ) :
    BatState × ℤ :=
  if 0 ≤ s.cache ∧ now - s.last_read < BAT_UPDATE_S then (s, s.cache)
  else
    let pct := battery_compute samples
    (⟨pct, now⟩, pct)

/-! ## Eye animation cursor (`_current_eye`) -/

/-- The closed set of eye-expression names. -/
inductive EName where
  | center | eleft | eright | blink | happy | surprised | sleepy | wink_shut
  deriving DecidableEq, Repr

/-- An expression request: a bare name (symmetric) or a
`(left, right)` pair. -/
inductive Expression where
  | sym (e : EName)
  | asym (l r : EName)
  deriving DecidableEq, Repr

/-- `EYE_SEQUENCE`: the fixed looping list of `(expression, duration)`
steps. -/
def EYE_SEQUENCE : List (Expression × ℚ) :=
  [(.sym .center, 3), (.sym .blink, 3 / 20), (.sym .center, 2),
   (.sym .eleft, 3 / 2), (.sym .center, 1), (.sym .eright, 3 / 2),
   (.sym .center, 2), (.sym .blink, 3 / 20), (.sym .center, 2),
   (.asym .center .wink_shut, 3 / 2), (.sym .center, 2),
   (.sym .happy, 2)]

/-- Animation cursor: `_eye_idx` and `_eye_t` (start time of the active
step). -/
structure EyeAnim where
  idx : ℕ
  t : ℚ
  deriving DecidableEq, Repr

/-- `_current_eye()` at monotonic time `now`: if the active step's
duration has elapsed, advance the cursor one step (mod the sequence
length) and restart its clock; return the (possibly just-advanced)
step's expression. -/
def current_eye (s : EyeAnim) (now : ℚ) : EyeAnim × Expression :=
  let step := EYE_SEQUENCE.getD s.idx (.sym .center, 1)
  if step.2 ≤ now - s.t then
    let idx' := (s.idx + 1) % EYE_SEQUENCE.length
    (⟨idx', now⟩, (EYE_SEQUENCE.getD idx' (.sym .center, 1)).1)
  else (s, step.1)

/-! ## Display renderer change detection (`lcd_show`, `lcd_show_eyes`) -/

/-- The closed set of mouth names (`_MOUTHS` keys). -/
inductive MName where
  | neutral | smile | mopen
  deriving DecidableEq, Repr

/-- `_MOUTH_FOR_EXPR`: which mouth pairs with which (left) eye
expression; the dict covers every expression name, so the `"neutral"`
lookup default is never consulted. -/
def MOUTH_FOR_EXPR : EName → MName
  | .center => .neutral
  | .eleft => .neutral
  | .eright => .neutral
  | .blink => .neutral
  | .happy => .smile
  | .surprised => .mopen
  | .sleepy => .neutral
  | .wink_shut => .smile

/-- The face-view change-detection tuple `state = (left_expr, right_expr,
mouth, bat_str, bottom)` from `lcd_show_eyes`. -/
abbrev EyeSt := EName × Option EName × MName × Str × Str

/-- Renderer module state: the two text-view caches `_last_lcd_1` /
`_last_lcd_2`, the face-view cache `_last_eye_state`, and the CGRAM
glyph caches `_loaded_expr_l` / `_loaded_expr_r` / `_loaded_mouth`. -/
structure RState where
  last1 : Option Str
  last2 : Option Str
  lastEye : Option EyeSt
  loadedL : Option EName
  loadedR : Option EName
  loadedM : Option MName
  deriving DecidableEq, Repr

/-- State after `lcd_reset()`: every cache cleared. -/
def RState.reset : RState := ⟨none, none, none, none, none, none⟩

/-- What a physical redraw painted: a fitted text pair (from
`lcd_show`) or a face state tuple (from `lcd_show_eyes`). -/
abbrev RContent := (Str × Str) ⊕ EyeSt

/-- A render call: `lcd_show(line1, line2, center)` or
`lcd_show_eyes(text, expr_name, bat_str, mouth)`. -/
inductive RCall where
  | txt (line1 line2 : Option Str) (center : Bool)
  | eyes (text : Str) (expr : Expression) (bat : Str) (mouth : Option MName)
  deriving DecidableEq, Repr

/-- `lcd_show`: fit both lines to the display width; if both match the
cached last lines, return without touching the device; otherwise update
the cache and issue the physical clear+repaint. -/
def lcd_show (s : RState) (line1 line2 : Option Str) (center : Bool) :
    RState × Option RContent :=
  let l1 := fit_line line1 LCD_COLS center
  let l2 := fit_line line2 LCD_COLS center
  if s.last1 = some l1 ∧ s.last2 = some l2 then (s, none)
  else ({ s with last1 := some l1, last2 := some l2 }, some (.inl (l1, l2)))

/-- `_load_expression(left, right)` on the CGRAM caches: with `right`
absent both eyes use `left`; reprogram slots 0–3 only on a change. -/
def load_expression (s : RState) (l : EName) (r : Option EName) : RState :=
  let r := r.getD l
  if s.loadedL = some l ∧ s.loadedR = some r then s
  else { s with loadedL := some l, loadedR := some r }

/-- `_load_mouth(name)` on the CGRAM cache: reprogram slots 4–6 only on
a change. -/
def load_mouth (s : RState) (m : MName) : RState :=
  if s.loadedM = some m then s else { s with loadedM := some m }

/-- The body of `lcd_show_eyes` up to the change check: unpack the
expression into `(left_expr, right_expr)`, derive the mouth from
`_MOUTH_FOR_EXPR` when not overridden, build the bottom line
(`_lcd_line(text, bat_str)` when a battery label is present, else
`_fit_line(text)`), and assemble the change-detection tuple
`(left_expr, right_expr, mouth, bat_str, bottom)`. -/
def eyeTuple (expr : Expression) (text bat : Str) (mouth : Option MName) :
    EyeSt :=
  let le : EName := match expr with | .asym l _ => l | .sym e => e
  let re : Option EName :=
    match expr with | .asym _ r => some r | .sym _ => none
  let m := mouth.getD (MOUTH_FOR_EXPR le)
  let bottom := if bat ≠ [] then lcd_line text bat LCD_COLS
                else fit_line (some text) LCD_COLS false
  (le, re, m, bat, bottom)

/-- `lcd_show_eyes`: compare the state tuple against `_last_eye_state`;
if unchanged return without touching the device, otherwise record it,
invalidate the text-view caches, lazily load glyphs and issue the
physical clear+repaint. -/
def lcd_show_eyes (s : RState) (text : Str) (expr : Expression)
    (bat : Str) (mouth : Option MName) : RState × Option RContent :=
  let st := eyeTuple expr text bat mouth
  if s.lastEye = some st then (s, none)
  else
    let s1 := { s with lastEye := some st, last1 := none, last2 := none }
    let s2 := load_mouth (load_expression s1 st.1 st.2.1) st.2.2.1
    (s2, some (.inr st))

/-- Dispatch one render call. -/
def renderStep (s : RState) : RCall → RState × Option RContent
  | .txt l1 l2 c => lcd_show s l1 l2 c
  | .eyes t e b m => lcd_show_eyes s t e b m

/-- Run a sequence of render calls, collecting the contents of the
physical redraws actually issued. -/
def renderRun (s : RState) : List RCall → List RContent
  | [] => []
  | c :: cs => (renderStep s c).2.toList ++ renderRun (renderStep s c).1 cs

/-! ## Effect traces: `play_wav` and `power_off` -/

/-- Externally visible effects of the audio/power paths. -/
inductive Act where
  | audioStop | audioPlay | ampOn | ampOff
  | showPlaying | showMissing | showPoweringOff
  | sleepFor (d : ℚ) | lcdClearE | backlightOff | waitRelease
  | saveCounter | deepSleep
  deriving DecidableEq, Repr

/-- The `OSError` raised by a failing `open`. -/
inductive OSError where
  | osError
  deriving DecidableEq, Repr

/-- `open(path, "rb")`, abstracted to whether the asset exists. -/
def openWav (openOk : Bool) : Except OSError Unit :=
  if openOk then .ok () else .error .osError

/-- The `while audio.playing` body: each poll observes
`(audio.playing, start_pressed())`; an interrupt stops and breaks,
otherwise the playing screen is refreshed and the loop sleeps. -/
def play_loop (allowInt : Bool) : List (Bool × Bool) → List Act
  | [] => []
  | (playing, pressed) :: rest =>
    if playing then
      if allowInt && pressed then [.audioStop]
      else .showPlaying :: .sleepFor (1 / 100) :: play_loop allowInt rest
    else []

/-- `play_wav(path, label, allow_start_interrupt, expr)`: stop any
current playback, show the playing screen, enable the amp with a settle
delay, then try to open and play the asset; an `OSError` from the open
is caught locally — the handler disables the amp, shows the missing-file
screen, dwells 1.2 s and returns.  The result is the effect trace; an
`Except.error` would mean the exception escaped the function. -/
def play_wav (initPlaying openOk allowInt : Bool)
    (polls : List (Bool × Bool)) : Except OSError (List Act) :=
  let pre := (if initPlaying then [Act.audioStop, Act.sleepFor (5 / 100)]
              else [])
    ++ [Act.showPlaying, Act.ampOn, Act.sleepFor (15 / 100)]
  match openWav openOk with
  | .ok _ =>
    .ok (pre ++ Act.audioPlay :: play_loop allowInt polls
      ++ [Act.audioStop, Act.sleepFor (15 / 100), Act.ampOff])
  | .error _ =>
    .ok (pre ++ [Act.ampOff, Act.showMissing, Act.sleepFor (6 / 5)])

/-- `power_off()`: persist the interaction count, disable the amp, stop
any audio, show the farewell screen, clear, drop the backlight, wait for
button release and enter deep sleep. -/
def power_off_acts (audioPlaying : Bool) : List Act :=
  [.saveCounter, .ampOff] ++ (if audioPlaying then [Act.audioStop] else [])
  ++ [.showPoweringOff, .sleepFor 2, .lcdClearE, .backlightOff,
      .waitRelease, .deepSleep]

/-- The main-loop critical-battery branch: an explicit
`_save_interaction_count()` followed by `power_off()`. -/
def critical_battery_acts (audioPlaying : Bool) : List Act :=
  Act.saveCounter :: power_off_acts audioPlaying

/-- Interpret a trace's effect on the counter state: only
`saveCounter` touches it. -/
def runCounter (c : CounterState) : List Act → CounterState
  | [] => c
  | .saveCounter :: rest => runCounter (save_interaction_count c) rest
  | _ :: rest => runCounter c rest

/-- Walk a trace tracking the counter state; at every `ampOff` the
counter must already be flushed (no pending writes and NVM equal to the
little-endian encoding of the in-memory count). -/
def flushedBeforeOff (c : CounterState) : List Act → Bool
  | [] => true
  | .ampOff :: rest =>
    (decide (c.pending = 0) && decide (c.nvm = toBytesLE4 c.count))
      && flushedBeforeOff c rest
  | .saveCounter :: rest => flushedBeforeOff (save_interaction_count c) rest
  | _ :: rest => flushedBeforeOff c rest

/-- `a` occurs strictly before `b` somewhere in the trace `l`. -/
def actBefore (a b : Act) (l : List Act) : Prop :=
  ∃ i j : Fin l.length, (i : ℕ) < (j : ℕ) ∧ l.get i = a ∧ l.get j = b

instance (a b : Act) (l : List Act) : Decidable (actBefore a b l) := by
  unfold actBefore; infer_instance

/-! # Theorems -/

/-! ## C10 — line-formatting helpers produce exactly the display width -/

theorem fit_line_length (s : Option Str) (width : ℕ) (center : Bool) :
    (fit_line s width center).length = width := by
  simp only [fit_line]
  split
  · simp only [List.length_take]
    omega
  · split
    · simp only [spaces, List.length_append, List.length_replicate]
      omega
    · simp only [spaces, List.length_append, List.length_replicate]
      omega

theorem lcd_line_length (l r : Str) (width : ℕ) (h : r ≠ []) :
    (lcd_line l r width).length = width := by
  simp only [lcd_line]
  rw [if_neg h]
  split
  · next hg =>
    simp only [List.length_take, List.length_append, List.length_cons,
      List.length_nil]
    omega
  · next hg =>
    simp only [spaces, List.length_append, List.length_replicate]
    omega

/-- C10: for every input (a string or `None`, the latter treated as
empty) at the display width of 20 columns, `_fit_line` returns exactly
the width — truncating longer input to its first 20 characters — and
`_lcd_line` with a non-empty right label returns exactly the width
whether or not the two parts fit with a gap. -/
theorem c10_line_width :
    (∀ s center, (fit_line s LCD_COLS center).length = LCD_COLS) ∧
    (∀ s center, LCD_COLS < (s.getD ([] : Str)).length →
      fit_line s LCD_COLS center = (s.getD []).take LCD_COLS) ∧
    (∀ l r, r ≠ ([] : Str) → (lcd_line l r LCD_COLS).length = LCD_COLS) := by
  refine ⟨fun s c => fit_line_length s LCD_COLS c, fun s c h => ?_,
    fun l r h => lcd_line_length l r LCD_COLS h⟩
  simp only [fit_line]
  rw [if_pos h]

theorem c10_witness :
    fit_line (some ('a' :: List.replicate 24 'b')) LCD_COLS false =
      ((some ('a' :: List.replicate 24 'b')).getD []).take LCD_COLS ∧
    (lcd_line ['h', 'i'] ['9', '9', '%'] LCD_COLS).length = LCD_COLS ∧
    (lcd_line (List.replicate 18 'x') ['9', '9', '%'] LCD_COLS).length =
      LCD_COLS :=
  ⟨c10_line_width.2.1 _ false (by decide),
   c10_line_width.2.2 _ _ (by decide),
   c10_line_width.2.2 _ _ (by decide)⟩

/-! ## C8 — NVM counter load path -/

/-- C8: the load path decodes the 4 stored bytes as a little-endian
unsigned integer; a decoded value above the 1,000,000 sanity ceiling
loads as zero, a value at or below it loads as itself, and the all-ones
uninitialized pattern `0xFFFFFFFF` loads as zero. -/
theorem c8_load_sanity :
    (∀ b0 b1 b2 b3 : ℕ, fromBytesLE [b0, b1, b2, b3] =
      b0 + 256 * b1 + 65536 * b2 + 16777216 * b3) ∧
    (∀ nvm : List ℕ, 1000000 < fromBytesLE (nvm.take 4) →
      load_interaction_count nvm = 0) ∧
    (∀ nvm : List ℕ, fromBytesLE (nvm.take 4) ≤ 1000000 →
      load_interaction_count nvm = fromBytesLE (nvm.take 4)) ∧
    load_interaction_count [255, 255, 255, 255] = 0 := by
  refine ⟨fun b0 b1 b2 b3 => ?_, fun nvm h => ?_, fun nvm h => ?_, by decide⟩
  · simp only [fromBytesLE, List.foldr_cons, List.foldr_nil]
    ring
  · unfold load_interaction_count
    rw [if_pos h]
  · unfold load_interaction_count
    rw [if_neg (not_lt.mpr h)]

theorem c8_witness :
    load_interaction_count [0, 0, 16, 0] = 0 ∧
    load_interaction_count [66, 15, 0, 0] =
      fromBytesLE ([66, 15, 0, 0].take 4) :=
  ⟨c8_load_sanity.2.1 _ (by decide), c8_load_sanity.2.2.1 _ (by decide)⟩

/-! ## C4 — batched counter persistence, flush threshold 10 -/

theorem increment_no_flush (s : CounterState) (h : s.pending + 1 < 10) :
    increment_interaction s = ⟨s.count + 1, s.pending + 1, s.nvm⟩ := by
  unfold increment_interaction
  rw [if_neg (by dsimp only; omega)]

theorem increment_flush (s : CounterState) (h : 10 ≤ s.pending + 1) :
    increment_interaction s =
      ⟨s.count + 1, 0, toBytesLE4 (s.count + 1)⟩ := by
  unfold increment_interaction save_interaction_count
  rw [if_pos (by dsimp only; omega)]

theorem increment_iter_below (k : ℕ) (hk : k ≤ 9) :
    ∀ (c : ℕ) (nvm : List ℕ),
      increment_interaction^[k] ⟨c, 0, nvm⟩ = ⟨c + k, k, nvm⟩ := by
  induction k with
  | zero => intro c nvm; simp
  | succ k ih =>
    intro c nvm
    rw [Function.iterate_succ_apply', ih (by omega) c nvm,
      increment_no_flush _ (by dsimp only; omega)]
    rfl

/-- C4: from a state with zero pending unsaved interactions, 9 calls of
`_increment_interaction` leave the NVM store untouched (only the
in-memory count and pending grow), the 10th call persists the store to
match the in-memory count and zeroes pending, and pending is strictly
below the flush threshold of 10 immediately after any flush. -/
theorem c4_flush_threshold :
    (∀ (c : ℕ) (nvm : List ℕ),
      increment_interaction^[9] ⟨c, 0, nvm⟩ = ⟨c + 9, 9, nvm⟩) ∧
    (∀ (c : ℕ) (nvm : List ℕ),
      increment_interaction^[10] ⟨c, 0, nvm⟩ =
        ⟨c + 10, 0, toBytesLE4 (c + 10)⟩) ∧
    (∀ s : CounterState, (save_interaction_count s).pending < 10) := by
  refine ⟨fun c nvm => increment_iter_below 9 (by omega) c nvm,
    fun c nvm => ?_, fun s => by simp [save_interaction_count]⟩
  rw [show (10 : ℕ) = 9 + 1 from rfl, Function.iterate_succ_apply',
    increment_iter_below 9 (by omega) c nvm,
    increment_flush _ (by dsimp only; omega)]

/-! ## C6 — easter-egg detector -/

theorem check_egg_cases (w : List ℕ) (p : ℕ) :
    check_easter_egg w p = ([], true) ∨
      (check_easter_egg w p).2 = false := by
  simp only [check_easter_egg]
  split <;> split
  all_goals first
  | exact .inl rfl
  | exact .inr rfl

/-- C6: from an empty rolling window, firing `[0,2,4]` triggers the
easter egg (on the third fire), firing `[0,2,4,4]` also triggers it,
firing `[2,4,0]` never does; and whenever the detector reports a
trigger the window is cleared and the armed-loop press handler
suppresses normal playback for that event. -/
theorem c6_easter_egg :
    (eggRun [] [0, 2, 4]).2 = [false, false, true] ∧
    (eggRun [] [0, 2, 4, 4]).2 = [false, false, true, false] ∧
    true ∈ (eggRun [] [0, 2, 4, 4]).2 ∧
    (eggRun [] [2, 4, 0]).2 = [false, false, false] ∧
    (∀ (w : List ℕ) (p : ℕ), (check_easter_egg w p).2 = true →
      (check_easter_egg w p).1 = []) ∧
    (∀ (w : List ℕ) (p : ℕ), (check_easter_egg w p).2 = true →
      (press_plays w p).2 = false) := by
  refine ⟨by decide, by decide, by decide, by decide,
    fun w p h => ?_, fun w p h => ?_⟩
  · rcases check_egg_cases w p with he | he
    · rw [he]
    · rw [he] at h; exact absurd h (by decide)
  · simp only [press_plays, h, Bool.not_true]

theorem c6_witness :
    (check_easter_egg [0, 2] 4).1 = [] ∧ (press_plays [0, 2] 4).2 = false :=
  ⟨c6_easter_egg.2.2.2.2.1 [0, 2] 4 (by decide),
   c6_easter_egg.2.2.2.2.2 [0, 2] 4 (by decide)⟩

/-! ## C9 — pull-based eye animation advance -/

/-- C9: each `_current_eye` call advances the animation cursor by at
most one step regardless of how much time has elapsed (even many step
durations), advances exactly one step whenever the active step's
duration has elapsed, and returns the expression of the (possibly
just-advanced) step the cursor rests on. -/
theorem c9_eye_advance :
    ∀ (s : EyeAnim) (now : ℚ),
      ((current_eye s now).1.idx = s.idx ∨
        (current_eye s now).1.idx = (s.idx + 1) % EYE_SEQUENCE.length) ∧
      (current_eye s now).2 =
        (EYE_SEQUENCE.getD (current_eye s now).1.idx
          (.sym .center, 1)).1 ∧
      ((EYE_SEQUENCE.getD s.idx (.sym .center, 1)).2 ≤ now - s.t →
        (current_eye s now).1.idx = (s.idx + 1) % EYE_SEQUENCE.length) := by
  intro s now
  unfold current_eye
  dsimp only
  split
  · next h => exact ⟨.inr rfl, rfl, fun _ => rfl⟩
  · next h => exact ⟨.inl rfl, rfl, fun hd => absurd hd h⟩

theorem c9_witness :
    (current_eye ⟨0, 0⟩ 100).1.idx = (0 + 1) % EYE_SEQUENCE.length :=
  (c9_eye_advance ⟨0, 0⟩ 100).2.2 (by norm_num [EYE_SEQUENCE])

/-! ## C7 — battery percentage clamped and deterministic -/

theorem battery_compute_bounds (samples : List ℚ) :
    0 ≤ battery_compute samples ∧ battery_compute samples ≤ 100 := by
  unfold battery_compute
  exact ⟨le_max_left 0 _, max_le (by norm_num) (min_le_left _ _)⟩

/-- C7: the battery read always yields a percentage in `[0, 100]` for
arbitrary raw ADC samples (including out-of-range ones), and a constant
raw sample stream maps to the same clamped percentage on every cache
refresh. -/
theorem c7_battery_pct :
    (∀ samples : List ℚ,
      0 ≤ battery_compute samples ∧ battery_compute samples ≤ 100) ∧
    (∀ (s : BatState) (now : ℚ) (samples : List ℚ),
      (0 ≤ s.cache → s.cache ≤ 100) →
      0 ≤ (read_battery_pct s now samples).2 ∧
      (read_battery_pct s now samples).2 ≤ 100) ∧
    (∀ (s₁ s₂ : BatState) (n₁ n₂ v : ℚ),
      ¬(0 ≤ s₁.cache ∧ n₁ - s₁.last_read < BAT_UPDATE_S) →
      ¬(0 ≤ s₂.cache ∧ n₂ - s₂.last_read < BAT_UPDATE_S) →
      (read_battery_pct s₁ n₁ (List.replicate 5 v)).2 =
        (read_battery_pct s₂ n₂ (List.replicate 5 v)).2) := by
  refine ⟨battery_compute_bounds, fun s now samples h => ?_,
    fun s₁ s₂ n₁ n₂ v h₁ h₂ => ?_⟩
  · unfold read_battery_pct
    split
    · next hc => exact ⟨hc.1, h hc.1⟩
    · exact battery_compute_bounds samples
  · unfold read_battery_pct
    rw [if_neg h₁, if_neg h₂]

theorem c7_witness :
    (0 ≤ (read_battery_pct ⟨-1, 0⟩ 0 (List.replicate 5 70000)).2 ∧
      (read_battery_pct ⟨-1, 0⟩ 0 (List.replicate 5 70000)).2 ≤ 100) ∧
    (read_battery_pct ⟨-1, 0⟩ 0 (List.replicate 5 70000)).2 =
      (read_battery_pct ⟨50, 0⟩ 31 (List.replicate 5 70000)).2 :=
  ⟨c7_battery_pct.2.1 ⟨-1, 0⟩ 0 (List.replicate 5 70000)
      (fun _ => by decide),
   c7_battery_pct.2.2 ⟨-1, 0⟩ ⟨50, 0⟩ 0 31 70000
      (fun h => absurd h.1 (by decide))
      (fun h => absurd h.2 (by norm_num [BAT_UPDATE_S]))⟩

/-! ## C1 — touch-pad debounce -/

theorem debStep_low (s : DebState) (now : ℚ) :
    debStep s now false = (DebState.clear, false) := by
  simp [debStep]

theorem debStep_triggered (s : DebState) (now : ℚ) (htr : s.triggered = true) :
    debStep s now true = (s, false) := by
  simp [debStep, htr]

theorem debStep_start (t0 : ℚ) :
    debStep DebState.clear t0 true = (⟨t0, false⟩, false) := by
  simp [debStep, DebState.clear]

theorem debStep_wait (t0 t : ℚ) (h0 : t0 ≠ 0)
    (h : ¬ DEBOUNCE_S ≤ t - t0) :
    debStep ⟨t0, false⟩ t true = (⟨t0, false⟩, false) := by
  simp [debStep, h0, h]

theorem debStep_fire (t0 t : ℚ) (h0 : t0 ≠ 0) (h : DEBOUNCE_S ≤ t - t0) :
    debStep ⟨t0, false⟩ t true = (⟨t0, true⟩, true) := by
  simp [debStep, h0, h]

theorem debStep_fire_triggered (s : DebState) (t : ℚ) (c : Bool) :
    (debStep s t c).2 = true → (debStep s t c).1.triggered = true := by
  unfold debStep
  split
  · split
    · intro h; exact absurd h (by simp)
    · split
      · intro _; rfl
      · intro h; exact absurd h (by simp)
  · split
    · intro h; exact absurd h (by simp)
    · intro h; exact absurd h (by simp)

theorem debRun_all_high_triggered (s : DebState) (htr : s.triggered = true) :
    ∀ ts : List ℚ, debRun s (ts.map fun t => (t, true)) = (s, 0) := by
  intro ts
  induction ts with
  | nil => rfl
  | cons t ts ih =>
    simp only [List.map_cons, debRun, debStep_triggered s t htr, ih]
    simp

theorem debRun_all_high_le_one (ts : List ℚ) :
    ∀ s : DebState, (debRun s (ts.map fun t => (t, true))).2 ≤ 1 := by
  induction ts with
  | nil => intro s; simp [debRun]
  | cons t ts ih =>
    intro s
    simp only [List.map_cons, debRun]
    by_cases hf : (debStep s t true).2 = true
    · rw [debRun_all_high_triggered _ (debStep_fire_triggered s t true hf) ts]
      simp [hf]
    · rw [Bool.not_eq_true] at hf
      simpa [hf] using ih (debStep s t true).1

theorem debRun_all_high_short (t0 : ℚ) (h0 : t0 ≠ 0) :
    ∀ ts : List ℚ, (∀ t ∈ ts, ¬ DEBOUNCE_S ≤ t - t0) →
      debRun ⟨t0, false⟩ (ts.map fun t => (t, true)) = (⟨t0, false⟩, 0) := by
  intro ts
  induction ts with
  | nil => intro _; rfl
  | cons t ts ih =>
    intro h
    simp only [List.map_cons, debRun,
      debStep_wait t0 t h0 (h t (List.mem_cons_self t ts)),
      ih fun u hu => h u (List.mem_cons_of_mem t hu)]
    simp

theorem debRun_all_high_fires (t0 : ℚ) (h0 : t0 ≠ 0) :
    ∀ ts : List ℚ, (∃ t ∈ ts, DEBOUNCE_S ≤ t - t0) →
      1 ≤ (debRun ⟨t0, false⟩ (ts.map fun t => (t, true))).2 := by
  intro ts
  induction ts with
  | nil => rintro ⟨t, ht, -⟩; exact absurd ht (List.not_mem_nil t)
  | cons t ts ih =>
    rintro ⟨u, hu, hud⟩
    simp only [List.map_cons, debRun]
    by_cases hd : DEBOUNCE_S ≤ t - t0
    · rw [debStep_fire t0 t h0 hd]
      simp
    · rw [debStep_wait t0 t h0 hd]
      rcases List.mem_cons.mp hu with rfl | hu'
      · exact absurd hud hd
      · simpa using ih ⟨u, hu', hud⟩

/-- C1: for any poll-tick sequence over one touch channel starting from
the cleared debounce state (tick times are positive, as the monotonic
clock in the running loop always is): a raw-high pulse whose observed
samples all fall short of the 80 ms debounce threshold never fires; an
all-high run fires at most once from any starting state; a press whose
samples span the threshold (some tick at least 80 ms after the first
high observation) fires exactly once; and observing the line low clears
the `(high_since, triggered)` state unconditionally. -/
theorem c1_debounce :
    (∀ (t0 : ℚ) (ts : List ℚ), 0 < t0 →
      (∀ t ∈ ts, t - t0 < DEBOUNCE_S) →
      (debRun DebState.clear
        ((t0, true) :: ts.map fun t => (t, true))).2 = 0) ∧
    (∀ (s : DebState) (ts : List ℚ),
      (debRun s (ts.map fun t => (t, true))).2 ≤ 1) ∧
    (∀ (t0 : ℚ) (ts : List ℚ), 0 < t0 →
      (∃ t ∈ ts, DEBOUNCE_S ≤ t - t0) →
      (debRun DebState.clear
        ((t0, true) :: ts.map fun t => (t, true))).2 = 1) ∧
    (∀ (s : DebState) (now : ℚ),
      debStep s now false = (DebState.clear, false)) := by
  refine ⟨fun t0 ts h0 h => ?_, fun s ts => debRun_all_high_le_one ts s,
    fun t0 ts h0 h => ?_, debStep_low⟩
  · simp only [debRun, debStep_start t0,
      debRun_all_high_short t0 (ne_of_gt h0) ts
        (fun t ht => not_le.mpr (h t ht))]
    simp
  · have hle := debRun_all_high_le_one ts ⟨t0, false⟩
    have hge := debRun_all_high_fires t0 (ne_of_gt h0) ts h
    simp only [debRun, debStep_start t0]
    simp only [Bool.false_eq_true, if_false, zero_add]
    omega

theorem c1_witness :
    (debRun DebState.clear
      ((1, true) :: [(105 : ℚ) / 100].map fun t => (t, true))).2 = 0 ∧
    (debRun DebState.clear
      ((1, true) :: [(2 : ℚ)].map fun t => (t, true))).2 = 1 :=
  ⟨c1_debounce.1 1 [(105 : ℚ) / 100] (by norm_num)
      (by norm_num [DEBOUNCE_S]),
   c1_debounce.2.2.1 1 [(2 : ℚ)] (by norm_num)
      ⟨2, by simp, by norm_num [DEBOUNCE_S]⟩⟩

/-! ## C3 — change-detection-gated physical redraws -/

/-- The renderer-state footprint of the content a redraw painted: after a
text redraw its fitted pair is cached, after a face redraw its state
tuple is cached. -/
def lastInv (s : RState) : RContent → Prop
  | .inl p => s.last1 = some p.1 ∧ s.last2 = some p.2
  | .inr st => s.lastEye = some st

theorem load_expression_lastEye (s : RState) (l : EName) (r : Option EName) :
    (load_expression s l r).lastEye = s.lastEye := by
  simp only [load_expression]
  split <;> rfl

theorem load_mouth_lastEye (s : RState) (m : MName) :
    (load_mouth s m).lastEye = s.lastEye := by
  simp only [load_mouth]
  split <;> rfl

theorem renderStep_none (s : RState) (c : RCall) (s' : RState)
    (h : renderStep s c = (s', none)) : s' = s := by
  cases c with
  | txt l1 l2 cb =>
    simp only [renderStep, lcd_show] at h
    split at h
    · simp only [Prod.mk.injEq] at h
      exact h.1.symm
    · simp at h
  | eyes t e b m =>
    simp only [renderStep, lcd_show_eyes] at h
    split at h
    · simp only [Prod.mk.injEq] at h
      exact h.1.symm
    · simp at h

theorem renderStep_some_inv (s : RState) (c : RCall) (s' : RState)
    (r : RContent) (h : renderStep s c = (s', some r)) : lastInv s' r := by
  cases c with
  | txt l1 l2 cb =>
    simp only [renderStep, lcd_show] at h
    split at h
    · simp at h
    · simp only [Prod.mk.injEq, Option.some.injEq] at h
      rw [← h.1, ← h.2]
      exact ⟨rfl, rfl⟩
  | eyes t e b m =>
    simp only [renderStep, lcd_show_eyes] at h
    split at h
    · simp at h
    · simp only [Prod.mk.injEq, Option.some.injEq] at h
      rw [← h.1, ← h.2]
      show (load_mouth (load_expression _ _ _) _).lastEye = _
      rw [load_mouth_lastEye, load_expression_lastEye]

theorem renderStep_some_ne (s : RState) (c : RCall) (s' : RState)
    (r prev : RContent) (hInv : lastInv s prev)
    (h : renderStep s c = (s', some r)) : prev ≠ r := by
  cases c with
  | txt l1 l2 cb =>
    simp only [renderStep, lcd_show] at h
    split at h
    · simp at h
    · next hc =>
      simp only [Prod.mk.injEq, Option.some.injEq] at h
      rw [← h.2]
      cases prev with
      | inl p =>
        intro he
        simp only [Sum.inl.injEq] at he
        exact hc ⟨by rw [hInv.1, he], by rw [hInv.2, he]⟩
      | inr st => simp
  | eyes t e b m =>
    simp only [renderStep, lcd_show_eyes] at h
    split at h
    · simp at h
    · next hc =>
      simp only [Prod.mk.injEq, Option.some.injEq] at h
      rw [← h.2]
      cases prev with
      | inl p => simp
      | inr st =>
        intro he
        simp only [Sum.inr.injEq] at he
        exact hc (by rw [← he]; exact hInv)

theorem renderRun_chain (cs : List RCall) :
    ∀ (s : RState) (prev : RContent), lastInv s prev →
      List.Chain Ne prev (renderRun s cs) := by
  induction cs with
  | nil => intro s prev _; exact List.Chain.nil
  | cons c cs ih =>
    intro s prev hInv
    simp only [renderRun]
    rcases hstep : renderStep s c with ⟨s', o⟩
    cases o with
    | none =>
      rw [renderStep_none s c s' hstep]
      simpa using ih s prev hInv
    | some r =>
      simp only [Option.toList_some, List.singleton_append]
      exact List.Chain.cons (renderStep_some_ne s c s' r prev hInv hstep)
        (ih s' r (renderStep_some_inv s c s' r hstep))

theorem renderRun_chain' (cs : List RCall) :
    ∀ s : RState, List.Chain' Ne (renderRun s cs) := by
  induction cs with
  | nil => intro s; simp [renderRun]
  | cons c cs ih =>
    intro s
    simp only [renderRun]
    rcases hstep : renderStep s c with ⟨s', o⟩
    cases o with
    | none => simpa using ih s'
    | some r =>
      simp only [Option.toList_some, List.singleton_append]
      exact renderRun_chain cs s' r (renderStep_some_inv s c s' r hstep)

theorem renderStep_idem (s : RState) (c : RCall) :
    (renderStep (renderStep s c).1 c).2 = none := by
  cases c with
  | txt l1 l2 cb =>
    simp only [renderStep, lcd_show]
    by_cases hc : s.last1 = some (fit_line l1 LCD_COLS cb) ∧
        s.last2 = some (fit_line l2 LCD_COLS cb)
    · rw [if_pos hc]
      dsimp only
      rw [if_pos hc]
    · rw [if_neg hc]
      dsimp only
      rw [if_pos ⟨rfl, rfl⟩]
  | eyes t e b m =>
    simp only [renderStep, lcd_show_eyes]
    by_cases hc : s.lastEye = some (eyeTuple e t b m)
    · rw [if_pos hc]
      dsimp only
      rw [if_pos hc]
    · rw [if_neg hc]
      dsimp only
      rw [if_pos (by rw [load_mouth_lastEye, load_expression_lastEye])]

theorem renderStep_reset_some (c : RCall) :
    ∃ (s' : RState) (r : RContent),
      renderStep RState.reset c = (s', some r) := by
  cases c with
  | txt l1 l2 cb =>
    simp only [renderStep, lcd_show]
    rw [if_neg (by rintro ⟨h1, -⟩; exact Option.noConfusion h1)]
    exact ⟨_, _, rfl⟩
  | eyes t e b m =>
    simp only [renderStep, lcd_show_eyes]
    rw [if_neg (fun h => Option.noConfusion h)]
    exact ⟨_, _, rfl⟩

/-- C3: over any sequence of render calls, physical redraws are gated by
content equality — successive redraw contents always differ (a redraw is
issued only when the fitted text pair or face state tuple differs from
the immediately previous redraw), repeating a render call adds no second
physical write, and from the reset state an identical call made twice
issues exactly one physical write. -/
theorem c3_render_change_detection :
    (∀ (s : RState) (cs : List RCall),
      List.Chain' Ne (renderRun s cs)) ∧
    (∀ (s : RState) (c : RCall), renderRun s [c, c] = renderRun s [c]) ∧
    (∀ c : RCall, (renderRun RState.reset [c, c]).length = 1) := by
  refine ⟨fun s cs => renderRun_chain' cs s, fun s c => ?_, fun c => ?_⟩
  · simp only [renderRun, List.append_nil, renderStep_idem,
      Option.toList_none, List.nil_append]
  · rcases renderStep_reset_some c with ⟨s', r, hstep⟩
    simp only [renderRun, renderStep_idem, Option.toList_none,
      List.append_nil, List.nil_append]
    rw [hstep]
    rfl

/-! ## C2 — `play_wav` open-failure recovery -/

/-- C2 counterexample: the claim's ordering is false on the open-failure
path — `play_wav` disables the output stage *first* and only then shows
the missing-file screen and dwells; the missing-file screen is never
shown before the amp disable. -/
theorem c2_counterexample :
    play_wav false false true [] =
      .ok [Act.showPlaying, Act.ampOn, Act.sleepFor (15 / 100), Act.ampOff,
        Act.showMissing, Act.sleepFor (6 / 5)] ∧
    ¬ actBefore Act.showMissing Act.ampOff
        [Act.showPlaying, Act.ampOn, Act.sleepFor (15 / 100), Act.ampOff,
          Act.showMissing, Act.sleepFor (6 / 5)] := by
  constructor
  · rfl
  · decide

/-- C2 (amended): when the asset's file open fails, `play_wav` recovers
locally — it disables the output stage, then shows the missing-file
screen and dwells 1.2 s, and returns without raising; with any inputs
the `OSError` is caught at its call site and never propagated upward. -/
theorem c2_missing_file_recovery :
    (∀ (ip ok ai : Bool) (polls : List (Bool × Bool)),
      ∃ tr, play_wav ip ok ai polls = .ok tr) ∧
    (∀ (ip ai : Bool) (polls : List (Bool × Bool)),
      play_wav ip false ai polls =
        .ok ((if ip then [Act.audioStop, Act.sleepFor (5 / 100)] else [])
          ++ [Act.showPlaying, Act.ampOn, Act.sleepFor (15 / 100),
              Act.ampOff, Act.showMissing, Act.sleepFor (6 / 5)])) ∧
    (∀ ip : Bool,
      actBefore Act.ampOff Act.showMissing
        ((if ip then [Act.audioStop, Act.sleepFor (5 / 100)] else [])
          ++ [Act.showPlaying, Act.ampOn, Act.sleepFor (15 / 100),
              Act.ampOff, Act.showMissing, Act.sleepFor (6 / 5)])) := by
  refine ⟨fun ip ok ai polls => ?_, fun ip ai polls => ?_, fun ip => ?_⟩
  · cases ok
    · exact ⟨_, rfl⟩
    · exact ⟨_, rfl⟩
  · cases ip <;> rfl
  · cases ip <;> decide

/-! ## C5 — counter flushed before output disable on power-off paths -/

/-- C5: on both paths that enter the power-off sequence (the long
button hold calling `power_off`, and the critical-battery branch that
saves and then calls `power_off`), the interaction counter reaches the
non-volatile store before the output stage is disabled: at every
`ampOff` in either trace the tracked counter state has no pending
writes and its NVM bytes equal the encoded in-memory count, for every
starting counter state (in particular one whose most recent increment
left `pending` below the flush threshold); and a counter save strictly
precedes the first output disable in both traces. -/
theorem c5_flush_before_output_disable :
    (∀ (ap : Bool) (c : CounterState),
      flushedBeforeOff c (power_off_acts ap) = true) ∧
    (∀ (ap : Bool) (c : CounterState),
      flushedBeforeOff c (critical_battery_acts ap) = true) ∧
    (∀ ap : Bool, actBefore Act.saveCounter Act.ampOff
      (power_off_acts ap)) ∧
    (∀ ap : Bool, actBefore Act.saveCounter Act.ampOff
      (critical_battery_acts ap)) := by
  refine ⟨fun ap c => ?_, fun ap c => ?_, fun ap => ?_, fun ap => ?_⟩
  · cases ap <;>
      simp [power_off_acts, flushedBeforeOff, save_interaction_count]
  · cases ap <;>
      simp [critical_battery_acts, power_off_acts, flushedBeforeOff,
        save_interaction_count]
  · cases ap <;> decide
  · cases ap <;> decide

end Buddy
